import Mathlib

/-!
Verification of the context logger package (`context/logger.go`).

The package binds a logger to an immutable Go `context.Context` under a
private key, resolves it back out with a fallback to a process-wide
default logger guarded by an RWMutex, and enriches the resolved logger
with explicit fields and with values looked up in the context by key.

Shallow embedding conventions:
* Go `interface{}` values occurring as context keys, context values,
  field values and loggers are drawn from one inductive universe `GoVal`.
* A `*logrus.Entry` is a pair of an identifier of its underlying
  `logrus.Logger` and its field data; logrus `WithFields` returns a new
  entry whose data is the old data overridden by the new fields, which we
  represent by prepending to an association list read with a
  first-match lookup (`lookupField`).
* A Go map built by successive insertions is represented by the
  association list of the insertions in reverse order, so that a
  first-match lookup sees the last insertion, as a Go map read does.
* The mutable package-level `defaultLogger` slot (a `*logrus.Entry`
  pointer, hence possibly nil) is threaded explicitly: each operation
  takes the slot contents and returns its result together with the slot
  contents after the call.  A `none` result of a resolution stands for
  the nil-pointer dereference that would panic in Go.
* A Go `context.Context` is an immutable chain of key/value bindings;
  `Value` returns the most recently bound value for the key, comparing
  keys with Go interface equality (`goValBeq`).
-/

set_option autoImplicit false

namespace ContextLogger

/-- Universe of Go `interface{}` values used by the package: strings and
integers as sample user key/value types, the private `loggerKey{}`
sentinel, non-nil `*logrus.Entry` values (underlying-logger id plus
field data), the typed-nil `*logrus.Entry` pointer `(*logrus.Entry)(nil)`
(a non-nil interface value whose method set satisfies `Logger`), and
logger capabilities implemented by some type other than `*logrus.Entry`. -/
inductive GoVal where
  | str : String → GoVal
  | int : Int → GoVal
  | loggerKeyV : GoVal
  | entry : Nat → List (String × GoVal) → GoVal
  | entryNil : GoVal
  | otherLogger : Nat → GoVal

mutual

/-- Go interface equality (`==`) on the value universe. -/
def goValBeq : GoVal → GoVal → Bool
  | GoVal.str a, GoVal.str b => a == b
  | GoVal.int a, GoVal.int b => a == b
  | GoVal.loggerKeyV, GoVal.loggerKeyV => true
  | GoVal.entry b1 d1, GoVal.entry b2 d2 => b1 == b2 && goFieldsBeq d1 d2
  | GoVal.entryNil, GoVal.entryNil => true
  | GoVal.otherLogger a, GoVal.otherLogger b => a == b
  | _, _ => false

/-- Go equality on field lists, pointwise. -/
def goFieldsBeq : List (String × GoVal) → List (String × GoVal) → Bool
  | [], [] => true
  | (n1, v1) :: r1, (n2, v2) :: r2 =>
      n1 == n2 && goValBeq v1 v2 && goFieldsBeq r1 r2
  | _, _ => false

end

/-- A `*logrus.Entry`: the identity of its underlying `logrus.Logger`
and its `Data` field set. -/
structure Entry where
  base : Nat
  data : List (String × GoVal)

/-- The entry viewed as a Go interface value. -/
def Entry.toVal (e : Entry) : GoVal := GoVal.entry e.base e.data

/-- Type assertion `v.(*logrus.Entry)`: `none` when the dynamic type is
not `*logrus.Entry` (`ok = false`); otherwise `some` of the asserted
pointer, which is itself `none` for the typed-nil pointer
`(*logrus.Entry)(nil)` — the assertion succeeds on it with a nil
result. -/
def asEntry : GoVal → Option (Option Entry)
  | GoVal.entry b d => some (some ⟨b, d⟩)
  | GoVal.entryNil => some none
  | _ => none

/-- `fmt.Sprint` for `GoVal`: strings print as themselves, integers in
decimal, the `loggerKey{}` struct as braces; entries and other loggers
get a fixed deterministic rendering (never used as field names by the
claims, but the function is total). -/
def fmtSprint : GoVal → String
  | GoVal.str s => s
  | GoVal.int n => toString n
  | GoVal.loggerKeyV => "\x7b\x7d"
  | GoVal.entry _ _ => "*logrus.Entry"
  | GoVal.entryNil => "<nil>"
  | GoVal.otherLogger n => "logger" ++ toString n

/-- A Go context: chain of key/value bindings, most recent first. -/
abbrev Ctx := List (GoVal × GoVal)

/-- `ctx.Value(k)`: the most recently bound value for `k`, if any. -/
def ctxValue (ctx : Ctx) (k : GoVal) : Option GoVal :=
  match ctx with
  | [] => none
  | (k', v) :: rest => if goValBeq k' k then some v else ctxValue rest k

/-- `context.WithValue(ctx, k, v)`: derived context with one more binding. -/
def withValue (ctx : Ctx) (k v : GoVal) : Ctx := (k, v) :: ctx

/-- `WithLogger` from the source: binds the logger under the private
`loggerKey{}` key. -/
def WithLogger (ctx : Ctx) (logger : GoVal) : Ctx :=
  withValue ctx GoVal.loggerKeyV logger

/-- First-match lookup in a field association list: the read operation of
the Go `logrus.Fields` map in our representation. -/
def lookupField : List (String × GoVal) → String → Option GoVal
  | [], _ => none
  | (n, v) :: rest, k => if n = k then some v else lookupField rest k

/-- `entry.WithFields(fields)`: new entry on the same underlying logger
whose data is the old data overridden by `fields` (prepend, first-match
lookup). -/
def withFields (e : Entry) (fields : List (String × GoVal)) : Entry :=
  ⟨e.base, fields ++ e.data⟩

/-- `entry.WithField(k, v)` is `WithFields` with the singleton map. -/
def withField (e : Entry) (k : String) (v : GoVal) : Entry :=
  withFields e [(k, v)]

/-- Contents of the package-level `defaultLogger` slot: a
`*logrus.Entry` pointer, hence possibly nil. -/
abbrev DefSlot := Option Entry

/-- Initial slot contents:
`logrus.StandardLogger().WithFields(logrus.Fields{})` — the standard
logger (id 0) with empty field data. -/
def initialDefaultLogger : Entry := ⟨0, []⟩

/-- `SetDefaultLogger`: type-asserts the argument to `*logrus.Entry`;
on success stores the asserted pointer (nil included) in the slot under
the write lock, otherwise returns leaving the slot untouched. -/
def SetDefaultLogger (logger : GoVal) (s : DefSlot) : DefSlot :=
  match asEntry logger with
  | some p => p
  | none => s

/-- The `fields` map built by the loop in `getLogrusLogger`: for each
key in order, if the context holds a value for it, insert
`fields[fmt.Sprint(key)] = v` (insertion = prepend in our map
representation). -/
def resolveKeys (ctx : Ctx) (keys : List GoVal) : List (String × GoVal) :=
  keys.foldl
    (fun fields key =>
      match ctxValue ctx key with
      | some v => (fmtSprint key, v) :: fields
      | none => fields)
    []

/-- `getLogrusLogger`: take the logger bound under `loggerKey{}` when it
is present, of type `*logrus.Entry` and non-nil (the `logger == nil`
check after the assertion sends a typed-nil binding to the default as
well), otherwise read the default slot; then enrich it with the fields
resolved from the extra keys.  A `none` result stands for the
nil-pointer panic of `logger.WithFields` on a nil slot. -/
def getLogrusLogger (ctx : Ctx) (keys : List GoVal) (s : DefSlot) :
    Option Entry × DefSlot :=
  let bound : Option Entry :=
    match ctxValue ctx GoVal.loggerKeyV with
    | some v =>
        match asEntry v with
        | some p => p
        | none => none
    | none => none
  let logger : Option Entry :=
    match bound with
    | some l => some l
    | none => s
  (logger.map (fun l => withFields l (resolveKeys ctx keys)), s)

/-- `GetLogger`: the resolved logger, as a Go interface value. -/
def GetLogger (ctx : Ctx) (keys : List GoVal) (s : DefSlot) :
    Option GoVal × DefSlot :=
  let r := getLogrusLogger ctx keys s
  (r.1.map Entry.toVal, r.2)

/-- `GetLoggerWithField`: resolved logger with one extra explicit field
named `fmt.Sprint(key)`. -/
def GetLoggerWithField (ctx : Ctx) (key value : GoVal) (keys : List GoVal)
    (s : DefSlot) : Option GoVal × DefSlot :=
  let r := getLogrusLogger ctx keys s
  (r.1.map (fun l => (withField l (fmtSprint key) value).toVal), r.2)

/-- The `lfields` map of `GetLoggerWithFields`: every key of the
explicit fields map stringified with `fmt.Sprint` (insertion = prepend). -/
def mkLFields (fields : List (GoVal × GoVal)) : List (String × GoVal) :=
  fields.foldl (fun m kv => (fmtSprint kv.1, kv.2) :: m) []

/-- `GetLoggerWithFields`: resolved logger enriched with the stringified
explicit fields map. -/
def GetLoggerWithFields (ctx : Ctx) (fields : List (GoVal × GoVal))
    (keys : List GoVal) (s : DefSlot) : Option GoVal × DefSlot :=
  let lfields := mkLFields fields
  let r := getLogrusLogger ctx keys s
  (r.1.map (fun l => (withFields l lfields).toVal), r.2)

/-- Field data of a logger value (empty for non-entry loggers). -/
def entryFields : GoVal → List (String × GoVal)
  | GoVal.entry _ d => d
  | _ => []

/-- Field read on an operation result: `none` when the operation
panicked or the field is absent. -/
def fieldOf (r : Option GoVal) (n : String) : Option GoVal :=
  r.bind (fun g => lookupField (entryFields g) n)

/-- A sequence of `SetDefaultLogger` calls applied to the slot. -/
def runSets (s : DefSlot) : List GoVal → DefSlot
  | [] => s
  | l :: ls => runSets (SetDefaultLogger l s) ls

/-- The base logger picked by `getLogrusLogger` before field enrichment:
the context-bound entry when present, well-typed and non-nil, the slot
contents otherwise. -/
def resolvedBase (ctx : Ctx) (s : DefSlot) : Option Entry :=
  match ctxValue ctx GoVal.loggerKeyV with
  | some v =>
      match asEntry v with
      | some (some l) => some l
      | some none => s
      | none => s
  | none => s

/-- The context-derived fields of a key list, in key order: one entry
per key that has a value in the context, named by `fmt.Sprint`. -/
def ctxFieldList (ctx : Ctx) (keys : List GoVal) : List (String × GoVal) :=
  keys.filterMap (fun k => (ctxValue ctx k).map (fun v => (fmtSprint k, v)))

/-- The explicit fields of `GetLoggerWithFields`, in map-iteration
order, with stringified names. -/
def explicitFieldList (fields : List (GoVal × GoVal)) : List (String × GoVal) :=
  fields.map (fun kv => (fmtSprint kv.1, kv.2))

/-- All field names produced by a `GetLoggerWithFields` call: the
stringified explicit keys followed by the stringified extra keys that
are present in the context. -/
def fieldNames (ctx : Ctx) (fields : List (GoVal × GoVal)) (keys : List GoVal) :
    List String :=
  (explicitFieldList fields).map Prod.fst ++ (ctxFieldList ctx keys).map Prod.fst

end ContextLogger

namespace ContextLogger

/-! ### Helper lemmas -/

theorem getLogrusLogger_eq (ctx : Ctx) (keys : List GoVal) (s : DefSlot) :
    getLogrusLogger ctx keys s =
      ((resolvedBase ctx s).map (fun l => withFields l (resolveKeys ctx keys)), s) := by
  cases hv : ctxValue ctx GoVal.loggerKeyV with
  | none => simp [getLogrusLogger, resolvedBase, hv]
  | some v =>
      cases hp : asEntry v with
      | none => simp [getLogrusLogger, resolvedBase, hv, hp]
      | some p =>
          cases p <;> simp [getLogrusLogger, resolvedBase, hv, hp]

theorem resolvedBase_some (ctx : Ctx) (d : Entry) :
    ∃ l : Entry, resolvedBase ctx (some d) = some l := by
  unfold resolvedBase
  cases ctxValue ctx GoVal.loggerKeyV with
  | none => exact ⟨d, rfl⟩
  | some v =>
      cases hv : asEntry v with
      | none => exact ⟨d, by simp [hv]⟩
      | some p =>
          cases p with
          | none => exact ⟨d, by simp [hv]⟩
          | some l => exact ⟨l, by simp [hv]⟩

theorem resolveKeys_go (ctx : Ctx) (keys : List GoVal) :
    ∀ acc : List (String × GoVal),
      keys.foldl
        (fun fields key =>
          match ctxValue ctx key with
          | some v => (fmtSprint key, v) :: fields
          | none => fields)
        acc
      = (ctxFieldList ctx keys).reverse ++ acc := by
  induction keys with
  | nil => intro acc; simp [ctxFieldList]
  | cons k ks ih =>
      intro acc
      cases h : ctxValue ctx k with
      | none => simp [ctxFieldList, List.filterMap_cons, h, ih]
      | some v => simp [ctxFieldList, List.filterMap_cons, h, ih]

theorem resolveKeys_eq (ctx : Ctx) (keys : List GoVal) :
    resolveKeys ctx keys = (ctxFieldList ctx keys).reverse := by
  simpa using resolveKeys_go ctx keys []

theorem mkLFields_go (fields : List (GoVal × GoVal)) :
    ∀ acc : List (String × GoVal),
      fields.foldl (fun m kv => (fmtSprint kv.1, kv.2) :: m) acc
        = (explicitFieldList fields).reverse ++ acc := by
  induction fields with
  | nil => intro acc; simp [explicitFieldList]
  | cons kv rest ih => intro acc; simp [explicitFieldList, ih]

theorem mkLFields_eq (fields : List (GoVal × GoVal)) :
    mkLFields fields = (explicitFieldList fields).reverse := by
  simpa using mkLFields_go fields []

theorem lookupField_append_some {a : List (String × GoVal)} {n : String}
    {v : GoVal} (b : List (String × GoVal)) (h : lookupField a n = some v) :
    lookupField (a ++ b) n = some v := by
  induction a with
  | nil => simp [lookupField] at h
  | cons p rest ih =>
      by_cases hp : p.1 = n
      · simp [lookupField, hp] at h ⊢
        exact h
      · simp [lookupField, hp] at h ⊢
        exact ih h

theorem lookupField_append_none {a : List (String × GoVal)} {n : String}
    (b : List (String × GoVal)) (h : lookupField a n = none) :
    lookupField (a ++ b) n = lookupField b n := by
  induction a with
  | nil => rfl
  | cons p rest ih =>
      by_cases hp : p.1 = n
      · simp [lookupField, hp] at h
      · simp [lookupField, hp] at h ⊢
        exact ih h

theorem lookupField_of_mem_nodup {l : List (String × GoVal)} {n : String}
    {v : GoVal} (hnd : (l.map Prod.fst).Nodup) (hmem : (n, v) ∈ l) :
    lookupField l n = some v := by
  induction l with
  | nil => simp at hmem
  | cons p rest ih =>
      simp only [List.map_cons, List.nodup_cons] at hnd
      rcases List.mem_cons.mp hmem with h | h
      · subst h; simp [lookupField]
      · have hne : p.1 ≠ n := by
          intro he
          exact hnd.1 (he ▸ (List.mem_map.mpr ⟨(n, v), h, rfl⟩))
        simp [lookupField, hne]
        exact ih hnd.2 h

theorem lookupField_eq_none {l : List (String × GoVal)} {n : String}
    (h : n ∉ l.map Prod.fst) : lookupField l n = none := by
  induction l with
  | nil => rfl
  | cons p rest ih =>
      simp only [List.map_cons, List.mem_cons] at h
      push_neg at h
      have hne : p.1 ≠ n := fun he => h.1 he.symm
      simp [lookupField, hne]
      exact ih h.2

/-! ### Claim theorems -/

/-- Claim C1, counterexample: the claim quantifies over every logger,
but for a logger whose dynamic type is not `*logrus.Entry` the type
assertion in `getLogrusLogger` fails and the default logger is
returned instead of the bound logger, so the round-trip does not return
the bound logger. -/
theorem bind_resolve_roundtrip_cex :
    (GetLogger (WithLogger [] (GoVal.otherLogger 1)) []
        (some initialDefaultLogger)).1 ≠ some (GoVal.otherLogger 1) :=
  fun h => GoVal.noConfusion (Option.some.inj h)

/-- Claim C1, amended: for every context `C`, slot contents `s`, and
logger of the concrete `*logrus.Entry` type, resolving with no extra
keys on the context produced by `WithLogger` returns that very logger:
`GetLogger (WithLogger C L) = L` (identity round-trip). -/
theorem bind_resolve_roundtrip (s : DefSlot) (C : Ctx) (b : Nat)
    (d : List (String × GoVal)) :
    (GetLogger (WithLogger C (GoVal.entry b d)) [] s).1 =
      some (GoVal.entry b d) := rfl

/-- Claim C2: on a context with no logger bound under the private key,
resolution returns exactly the current contents of the default-logger
slot; and after a successful `SetDefaultLogger` with an entry the slot
holds that entry regardless of what it held before (last-write-wins),
so a subsequent resolution on an unbound context yields the new
default. -/
theorem resolve_unbound_returns_default (d : Entry) (C : Ctx) (s : DefSlot)
    (b : Nat) (dd : List (String × GoVal))
    (h : ctxValue C GoVal.loggerKeyV = none) :
    (GetLogger C [] (some d)).1 = some d.toVal ∧
    SetDefaultLogger (GoVal.entry b dd) s = some ⟨b, dd⟩ ∧
    (GetLogger C [] (SetDefaultLogger (GoVal.entry b dd) s)).1 =
      some (GoVal.entry b dd) := by
  refine ⟨?_, rfl, ?_⟩ <;>
    simp [GetLogger, getLogrusLogger, SetDefaultLogger, asEntry, h,
      resolveKeys, withFields, Entry.toVal]

/-- Claim C2, witness at a concrete unbound context and concrete
loggers. -/
theorem resolve_unbound_returns_default_witness :
    (GetLogger [(GoVal.str "a", GoVal.str "b")] []
        (some ⟨0, []⟩)).1 = some (Entry.toVal ⟨0, []⟩) ∧
    SetDefaultLogger (GoVal.entry 5 [("x", GoVal.str "y")])
        (some ⟨0, []⟩) = some ⟨5, [("x", GoVal.str "y")]⟩ ∧
    (GetLogger [(GoVal.str "a", GoVal.str "b")] []
        (SetDefaultLogger (GoVal.entry 5 [("x", GoVal.str "y")])
          (some ⟨0, []⟩))).1 =
      some (GoVal.entry 5 [("x", GoVal.str "y")]) :=
  resolve_unbound_returns_default ⟨0, []⟩ [(GoVal.str "a", GoVal.str "b")]
    (some ⟨0, []⟩) 5 [("x", GoVal.str "y")] rfl

/-- Claim C3: passing a value that is not a `*logrus.Entry` to
`SetDefaultLogger` is a silent no-op: the function returns (it is
total, so no panic) and the slot contents are identical before and
after the call. -/
theorem setDefault_non_entry_noop (s : DefSlot) (l : GoVal)
    (h : asEntry l = none) : SetDefaultLogger l s = s := by
  simp [SetDefaultLogger, h]

/-- Claim C3, witness: a non-entry logger capability leaves the initial
slot contents unchanged. -/
theorem setDefault_non_entry_noop_witness :
    SetDefaultLogger (GoVal.otherLogger 7) (some initialDefaultLogger) =
      some initialDefaultLogger :=
  setDefault_non_entry_noop (some initialDefaultLogger)
    (GoVal.otherLogger 7) rfl

/-- Claim C6: the three retrieval operations are pure with respect to
the default-logger slot: each returns the slot exactly as it received
it, and a later independent resolution on the same context (after a
retrieval call) yields the same logger as a resolution without the
earlier call.  The context argument is never rebound: the operations
return no context at all. -/
theorem retrieval_pure (s : DefSlot) (C : Ctx) (keys : List GoVal)
    (k v : GoVal) (F : List (GoVal × GoVal)) :
    (GetLogger C keys s).2 = s ∧
    (GetLoggerWithField C k v keys s).2 = s ∧
    (GetLoggerWithFields C F keys s).2 = s ∧
    (GetLogger C [] ((GetLoggerWithField C k v keys s).2)).1 =
      (GetLogger C [] s).1 :=
  ⟨rfl, rfl, rfl, rfl⟩

/-- Claim C7: binding a logger on a context derived from an ancestor
shadows the ancestor's binding for resolutions on the derived context,
while resolving on the ancestor still yields the ancestor's own
binding (or the default when the ancestor is unbound) — binding is
shadowing, never mutation. -/
theorem derived_binding_shadows (s : DefSlot) (C : Ctx) (b1 b2 : Nat)
    (d1 d2 : List (String × GoVal)) (dd : Entry)
    (h : ctxValue C GoVal.loggerKeyV = none) :
    (GetLogger (WithLogger (WithLogger C (GoVal.entry b1 d1))
        (GoVal.entry b2 d2)) [] s).1 = some (GoVal.entry b2 d2) ∧
    (GetLogger (WithLogger C (GoVal.entry b1 d1)) [] s).1 =
      some (GoVal.entry b1 d1) ∧
    (GetLogger (WithLogger C (GoVal.entry b2 d2)) [] (some dd)).1 =
      some (GoVal.entry b2 d2) ∧
    (GetLogger C [] (some dd)).1 = some dd.toVal := by
  refine ⟨rfl, rfl, rfl, ?_⟩
  simp [GetLogger, getLogrusLogger, h, resolveKeys, withFields, Entry.toVal]

/-- Claim C7, witness at the empty ancestor context. -/
theorem derived_binding_shadows_witness :
    (GetLogger (WithLogger (WithLogger [] (GoVal.entry 1 []))
        (GoVal.entry 2 [("f", GoVal.int 3)])) []
        (some initialDefaultLogger)).1 =
      some (GoVal.entry 2 [("f", GoVal.int 3)]) ∧
    (GetLogger (WithLogger [] (GoVal.entry 1 [])) []
        (some initialDefaultLogger)).1 = some (GoVal.entry 1 []) ∧
    (GetLogger (WithLogger [] (GoVal.entry 2 [("f", GoVal.int 3)])) []
        (some initialDefaultLogger)).1 =
      some (GoVal.entry 2 [("f", GoVal.int 3)]) ∧
    (GetLogger [] [] (some initialDefaultLogger)).1 =
      some (Entry.toVal initialDefaultLogger) :=
  derived_binding_shadows (some initialDefaultLogger) [] 1 2 []
    [("f", GoVal.int 3)] initialDefaultLogger rfl

/-- Claim C5: an explicit key of `GetLoggerWithField`, an explicit key
of `GetLoggerWithFields`, and an extra lookup key resolved from the
context all become field names through the one conversion `fmtSprint`
(the embedding of `fmt.Sprint`): in each of the three operations the
field carrying the key's value is found under the name `fmtSprint k`. -/
theorem sprint_uniform_field_names (d : Entry) (C : Ctx) (k v : GoVal) :
    fieldOf (GetLoggerWithField C k v [] (some d)).1 (fmtSprint k) = some v ∧
    fieldOf (GetLoggerWithFields C [(k, v)] [] (some d)).1 (fmtSprint k) =
      some v ∧
    (ctxValue C k = some v →
      fieldOf (GetLogger C [k] (some d)).1 (fmtSprint k) = some v) := by
  obtain ⟨l, hl⟩ := resolvedBase_some C d
  refine ⟨?_, ?_, fun hk => ?_⟩
  · simp [GetLoggerWithField, getLogrusLogger_eq, hl, fieldOf, withField,
      withFields, entryFields, Entry.toVal, lookupField]
  · simp [GetLoggerWithFields, getLogrusLogger_eq, hl, fieldOf, mkLFields,
      withFields, entryFields, Entry.toVal, lookupField]
  · simp [GetLogger, getLogrusLogger_eq, hl, fieldOf, withFields,
      entryFields, Entry.toVal, resolveKeys, hk, lookupField]

/-- Claim C5, witness: the integer key `1` yields the field name
`fmtSprint 1` in all three operations on a concrete context binding it. -/
theorem sprint_uniform_field_names_witness :
    fieldOf (GetLoggerWithField [(GoVal.int 1, GoVal.str "w")] (GoVal.int 1)
        (GoVal.str "w") [] (some ⟨0, []⟩)).1 (fmtSprint (GoVal.int 1)) =
      some (GoVal.str "w") ∧
    fieldOf (GetLoggerWithFields [(GoVal.int 1, GoVal.str "w")]
        [(GoVal.int 1, GoVal.str "w")] [] (some ⟨0, []⟩)).1
        (fmtSprint (GoVal.int 1)) = some (GoVal.str "w") ∧
    fieldOf (GetLogger [(GoVal.int 1, GoVal.str "w")] [GoVal.int 1]
        (some ⟨0, []⟩)).1 (fmtSprint (GoVal.int 1)) = some (GoVal.str "w") :=
  ⟨(sprint_uniform_field_names ⟨0, []⟩ [(GoVal.int 1, GoVal.str "w")]
      (GoVal.int 1) (GoVal.str "w")).1,
   (sprint_uniform_field_names ⟨0, []⟩ [(GoVal.int 1, GoVal.str "w")]
      (GoVal.int 1) (GoVal.str "w")).2.1,
   (sprint_uniform_field_names ⟨0, []⟩ [(GoVal.int 1, GoVal.str "w")]
      (GoVal.int 1) (GoVal.str "w")).2.2 rfl⟩

/-- Claim C8, code bug: the typed-nil pointer `(*logrus.Entry)(nil)`
satisfies the `Logger` interface, so `SetDefaultLogger` accepts it —
the type assertion succeeds with a nil result — and stores nil in the
slot.  Starting from the initialized slot, this one-call sequence
empties it, and a subsequent resolution on an unbound context reads
the nil slot and dereferences it in `logger.WithFields` (the panic
outcome `none`): the slot is not always valid and resolution can fail. -/
theorem typed_nil_default_breaks_resolution :
    runSets (some initialDefaultLogger) [GoVal.entryNil] = none ∧
    SetDefaultLogger GoVal.entryNil (some initialDefaultLogger) = none ∧
    (getLogrusLogger [] []
        (SetDefaultLogger GoVal.entryNil (some initialDefaultLogger))).1 =
      none :=
  ⟨rfl, rfl, rfl⟩

/-- Claim C10: when an extra lookup key present in the context
stringifies to the same name as the explicit key of
`GetLoggerWithField`, the returned logger carries the explicit value
under that name, not the context-resolved one: context-derived fields
are attached first and the explicit field overwrites them. -/
theorem explicit_field_overrides_context (d : Entry) (C : Ctx)
    (k v x w : GoVal) (_hx : ctxValue C x = some w)
    (hname : fmtSprint x = fmtSprint k) :
    fieldOf (GetLoggerWithField C k v [x] (some d)).1 (fmtSprint x) =
      some v ∧
    (v ≠ w →
      fieldOf (GetLoggerWithField C k v [x] (some d)).1 (fmtSprint x) ≠
        some w) := by
  obtain ⟨l, hl⟩ := resolvedBase_some C d
  have h1 : fieldOf (GetLoggerWithField C k v [x] (some d)).1 (fmtSprint x) =
      some v := by
    simp [GetLoggerWithField, getLogrusLogger_eq, hl, fieldOf, withField,
      withFields, entryFields, Entry.toVal, lookupField, hname]
  refine ⟨h1, fun hvw hc => hvw ?_⟩
  rw [h1] at hc
  exact Option.some.inj hc

/-- Claim C10, witness: the integer key `1` and the string key `"1"`
stringify alike; with `"1"` bound in the context, the explicit value
wins. -/
theorem explicit_field_overrides_context_witness :
    fieldOf (GetLoggerWithField [(GoVal.str "1", GoVal.str "w")]
        (GoVal.int 1) (GoVal.str "v") [GoVal.str "1"] (some ⟨0, []⟩)).1
        (fmtSprint (GoVal.str "1")) = some (GoVal.str "v") ∧
    fieldOf (GetLoggerWithField [(GoVal.str "1", GoVal.str "w")]
        (GoVal.int 1) (GoVal.str "v") [GoVal.str "1"] (some ⟨0, []⟩)).1
        (fmtSprint (GoVal.str "1")) ≠ some (GoVal.str "w") := by
  have hv : GoVal.str "v" ≠ GoVal.str "w" := by
    intro h; injection h with h1; exact absurd h1 (by decide)
  exact ⟨(explicit_field_overrides_context ⟨0, []⟩
      [(GoVal.str "1", GoVal.str "w")] (GoVal.int 1) (GoVal.str "v")
      (GoVal.str "1") (GoVal.str "w") rfl rfl).1,
    (explicit_field_overrides_context ⟨0, []⟩
      [(GoVal.str "1", GoVal.str "w")] (GoVal.int 1) (GoVal.str "v")
      (GoVal.str "1") (GoVal.str "w") rfl rfl).2 hv⟩

theorem ctxFieldList_filter (C : Ctx) (K : List GoVal) :
    ctxFieldList C (K.filter (fun k => (ctxValue C k).isSome)) =
      ctxFieldList C K := by
  induction K with
  | nil => rfl
  | cons k ks ih =>
      cases h : ctxValue C k with
      | none => simp [ctxFieldList, List.filter_cons, h] at ih ⊢; exact ih
      | some v => simp [ctxFieldList, List.filter_cons, h] at ih ⊢; exact ih

/-- Claim C4, counterexample: with the extra key `"k"` bound to
`"ctxv"` in the context and the explicit field `"k" ↦ "fv"`, the
returned logger does not map `"k"` to the context value `"ctxv"` (the
explicit field overwrote it), so the claim as stated — one field per
present extra key mapped to its context value, in every case — fails. -/
theorem fields_resolution_cex :
    ctxValue [(GoVal.str "k", GoVal.str "ctxv")] (GoVal.str "k") =
      some (GoVal.str "ctxv") ∧
    fieldOf (GetLoggerWithFields [(GoVal.str "k", GoVal.str "ctxv")]
        [(GoVal.str "k", GoVal.str "fv")] [GoVal.str "k"]
        (some initialDefaultLogger)).1 (fmtSprint (GoVal.str "k")) ≠
      some (GoVal.str "ctxv") := by
  refine ⟨rfl, fun h => ?_⟩
  have hval : fieldOf (GetLoggerWithFields [(GoVal.str "k", GoVal.str "ctxv")]
      [(GoVal.str "k", GoVal.str "fv")] [GoVal.str "k"]
      (some initialDefaultLogger)).1 (fmtSprint (GoVal.str "k")) =
      some (GoVal.str "fv") := rfl
  rw [hval] at h
  injection Option.some.inj h with h2
  exact absurd h2 (by decide)

/-- Claim C4, amended: `GetLoggerWithField` is `GetLoggerWithFields`
with the singleton map; extra keys with no value in the context
contribute no field (filtering them out leaves the result unchanged);
and provided the stringified explicit key names together with the
stringified names of the extra keys present in the context are
pairwise distinct, the returned logger maps every stringified explicit
key of `F` to its value and every present extra key's stringified name
to its context value.  (Without the distinctness proviso a later map
insertion or the explicit field overwrites a same-named field, as the
counterexample shows.) -/
theorem fields_resolution (d : Entry) (C : Ctx) (F : List (GoVal × GoVal))
    (K : List GoVal) :
    (∀ (k v : GoVal) (s : DefSlot),
      GetLoggerWithField C k v K s = GetLoggerWithFields C [(k, v)] K s) ∧
    GetLoggerWithFields C F K (some d) =
      GetLoggerWithFields C F (K.filter (fun k => (ctxValue C k).isSome))
        (some d) ∧
    ((fieldNames C F K).Nodup →
      (∀ kv ∈ F,
        fieldOf (GetLoggerWithFields C F K (some d)).1 (fmtSprint kv.1) =
          some kv.2) ∧
      (∀ x ∈ K, ∀ v, ctxValue C x = some v →
        fieldOf (GetLoggerWithFields C F K (some d)).1 (fmtSprint x) =
          some v)) := by
  obtain ⟨l, hl⟩ := resolvedBase_some C d
  refine ⟨fun k v s => rfl, ?_, fun hnd => ⟨?_, ?_⟩⟩
  · have hres : resolveKeys C (K.filter (fun k => (ctxValue C k).isSome)) =
        resolveKeys C K := by
      rw [resolveKeys_eq, resolveKeys_eq, ctxFieldList_filter]
    simp [GetLoggerWithFields, getLogrusLogger_eq, hres]
  · intro kv hkv
    have hmem : (fmtSprint kv.1, kv.2) ∈ explicitFieldList F :=
      List.mem_map.mpr ⟨kv, hkv, rfl⟩
    have hndF : ((explicitFieldList F).map Prod.fst).Nodup :=
      (List.nodup_append.mp hnd).1
    have hlk : lookupField (mkLFields F) (fmtSprint kv.1) = some kv.2 := by
      rw [mkLFields_eq]
      apply lookupField_of_mem_nodup
      · rw [List.map_reverse]
        exact List.nodup_reverse.mpr hndF
      · exact List.mem_reverse.mpr hmem
    simp [GetLoggerWithFields, getLogrusLogger_eq, hl, fieldOf, entryFields,
      Entry.toVal, withFields]
    exact lookupField_append_some _ hlk
  · intro x hx v hv
    obtain ⟨hndL, hndR, hdisj⟩ := List.nodup_append.mp hnd
    have hmem : (fmtSprint x, v) ∈ ctxFieldList C K :=
      List.mem_filterMap.mpr ⟨x, hx, by simp [hv]⟩
    have hnotF : fmtSprint x ∉ (explicitFieldList F).map Prod.fst :=
      fun hc => hdisj hc (List.mem_map.mpr ⟨(fmtSprint x, v), hmem, rfl⟩)
    have h1 : lookupField (mkLFields F) (fmtSprint x) = none := by
      rw [mkLFields_eq]
      apply lookupField_eq_none
      rw [List.map_reverse]
      exact fun hc => hnotF (List.mem_reverse.mp hc)
    have h2 : lookupField (resolveKeys C K) (fmtSprint x) = some v := by
      rw [resolveKeys_eq]
      apply lookupField_of_mem_nodup
      · rw [List.map_reverse]
        exact List.nodup_reverse.mpr hndR
      · exact List.mem_reverse.mpr hmem
    simp [GetLoggerWithFields, getLogrusLogger_eq, hl, fieldOf, entryFields,
      Entry.toVal, withFields]
    rw [lookupField_append_none _ h1]
    exact lookupField_append_some _ h2

/-- Claim C4, witness: two explicit fields and two extra keys, one
present and one absent, on a concrete context; all names distinct. -/
theorem fields_resolution_witness :
    GetLoggerWithField [(GoVal.str "rid", GoVal.str "xyz")] (GoVal.str "a")
        (GoVal.int 1) [GoVal.str "rid", GoVal.str "missing"]
        (some ⟨0, []⟩) =
      GetLoggerWithFields [(GoVal.str "rid", GoVal.str "xyz")]
        [(GoVal.str "a", GoVal.int 1)]
        [GoVal.str "rid", GoVal.str "missing"] (some ⟨0, []⟩) ∧
    GetLoggerWithFields [(GoVal.str "rid", GoVal.str "xyz")]
        [(GoVal.str "a", GoVal.int 1), (GoVal.str "b", GoVal.int 2)]
        [GoVal.str "rid", GoVal.str "missing"] (some ⟨0, []⟩) =
      GetLoggerWithFields [(GoVal.str "rid", GoVal.str "xyz")]
        [(GoVal.str "a", GoVal.int 1), (GoVal.str "b", GoVal.int 2)]
        (List.filter
          (fun k => (ctxValue [(GoVal.str "rid", GoVal.str "xyz")] k).isSome)
          [GoVal.str "rid", GoVal.str "missing"]) (some ⟨0, []⟩) ∧
    fieldOf (GetLoggerWithFields [(GoVal.str "rid", GoVal.str "xyz")]
        [(GoVal.str "a", GoVal.int 1), (GoVal.str "b", GoVal.int 2)]
        [GoVal.str "rid", GoVal.str "missing"] (some ⟨0, []⟩)).1
        (fmtSprint (GoVal.str "a")) = some (GoVal.int 1) ∧
    fieldOf (GetLoggerWithFields [(GoVal.str "rid", GoVal.str "xyz")]
        [(GoVal.str "a", GoVal.int 1), (GoVal.str "b", GoVal.int 2)]
        [GoVal.str "rid", GoVal.str "missing"] (some ⟨0, []⟩)).1
        (fmtSprint (GoVal.str "rid")) = some (GoVal.str "xyz") := by
  have hnd : (fieldNames [(GoVal.str "rid", GoVal.str "xyz")]
      [(GoVal.str "a", GoVal.int 1), (GoVal.str "b", GoVal.int 2)]
      [GoVal.str "rid", GoVal.str "missing"]).Nodup := by decide
  refine ⟨(fields_resolution ⟨0, []⟩ [(GoVal.str "rid", GoVal.str "xyz")]
      [(GoVal.str "a", GoVal.int 1)]
      [GoVal.str "rid", GoVal.str "missing"]).1 (GoVal.str "a")
      (GoVal.int 1) (some ⟨0, []⟩),
    (fields_resolution ⟨0, []⟩ [(GoVal.str "rid", GoVal.str "xyz")]
      [(GoVal.str "a", GoVal.int 1), (GoVal.str "b", GoVal.int 2)]
      [GoVal.str "rid", GoVal.str "missing"]).2.1,
    ((fields_resolution ⟨0, []⟩ [(GoVal.str "rid", GoVal.str "xyz")]
      [(GoVal.str "a", GoVal.int 1), (GoVal.str "b", GoVal.int 2)]
      [GoVal.str "rid", GoVal.str "missing"]).2.2 hnd).1
      (GoVal.str "a", GoVal.int 1) (List.mem_cons_self _ _),
    ((fields_resolution ⟨0, []⟩ [(GoVal.str "rid", GoVal.str "xyz")]
      [(GoVal.str "a", GoVal.int 1), (GoVal.str "b", GoVal.int 2)]
      [GoVal.str "rid", GoVal.str "missing"]).2.2 hnd).2
      (GoVal.str "rid") (List.mem_cons_self _ _) (GoVal.str "xyz") rfl⟩

end ContextLogger

